import Mathlib

/-!
Shallow embedding of `src/whisperer.py` (Whisperer - Grab DigitalWhisper
issues).  Strings are modelled as `List Char`, Python ints as `Int`/`Nat`,
Python floats as exact rationals.  Network and filesystem effects are
modelled by explicit environments: the latest-issue index page is modelled
by the `Option Nat` result its regex search would produce, and each issue's
download environment records file existence, the two interactive answers
and the fetch outcome.  Fatal paths (`exit(1)` and uncaught exceptions,
both of which leave the process with a non-zero status and a message on
the error stream) are modelled by `Abort`.
-/

/-! ### Decimal digits and Python `str` / `int` on the relevant domain -/

/-- Decimal digit character of a value below ten, as produced by Python
`str` on an `int` (code 48 is `0`). -/
def digitChar (d : Nat) : Char := Char.ofNat (48 + d)

/-- Value of a decimal digit character, `none` for non-digits. -/
def parseDigit (c : Char) : Option Nat :=
  if '0' ≤ c ∧ c ≤ '9' then some (c.toNat - 48) else none

/-- Python `str` of a non-negative integer: its decimal digits. -/
def natToStr (n : Nat) : List Char :=
  if h : n < 10 then [digitChar n]
  else natToStr (n / 10) ++ [digitChar (n % 10)]
decreasing_by exact Nat.div_lt_self (by omega) (by omega)

/-- Accumulated decimal value of a character list (digits assumed). -/
def decVal (l : List Char) : Nat :=
  l.foldl (fun a c => 10 * a + (parseDigit c).getD 0) 0

/-- Parse a non-empty all-digit string as a natural number, else `none`. -/
def parseNatDigits (l : List Char) : Option Nat :=
  if l ≠ [] ∧ l.all (fun c => (parseDigit c).isSome) then some (decVal l) else none

/-- Python `int` applied to a string: an optional sign followed by decimal
digits; any other shape raises `ValueError`, modelled as `none`.
(Surrounding whitespace and underscores, which Python also tolerates, do
not occur in this program's inputs and are not modelled.) -/
def pyInt (l : List Char) : Option Int :=
  if l.head? = some '-' then (parseNatDigits l.tail).map (fun n => -(n : Int))
  else if l.head? = some '+' then (parseNatDigits l.tail).map (fun n => (n : Int))
  else (parseNatDigits l).map (fun n => (n : Int))

/-- Python `str` of the latest-issue value, which is either an `int` or
`None` (the resolver returns `None` on failure, and `str(None)` is the
four characters `None`). -/
def pyStrOpt : Option Nat → List Char
  | some n => natToStr n
  | none => ['N', 'o', 'n', 'e']

/-! ### String utilities: split, substring test, replace, lower -/

/-- Python `s.split(c)` for a one-character separator. -/
def splitOnChar (c : Char) : List Char → List (List Char)
  | [] => [[]]
  | x :: xs =>
    if x = c then [] :: splitOnChar c xs
    else
      match splitOnChar c xs with
      | [] => [[]]
      | h :: t => (x :: h) :: t

/-- Boolean test that `p` is a leading segment of `l`. -/
def leadsWith : List Char → List Char → Bool
  | [], _ => true
  | _ :: _, [] => false
  | p :: ps, x :: xs => p = x && leadsWith ps xs

/-- Python substring containment `pat in l`. -/
def strIn (pat : List Char) : List Char → Bool
  | [] => pat.isEmpty
  | l@(_ :: xs) => leadsWith pat l || strIn pat xs

/-- Fuel-driven worker for `replaceAll`; the fuel starts at the length of
the subject string, which suffices because every step consumes at least
one character (the pattern is non-empty at the single call site). -/
def replaceGo (pat rep : List Char) : Nat → List Char → List Char
  | _, [] => []
  | 0, l => l
  | fuel + 1, x :: xs =>
    if leadsWith pat (x :: xs) && !pat.isEmpty then
      rep ++ replaceGo pat rep fuel (List.drop pat.length (x :: xs))
    else x :: replaceGo pat rep fuel xs

/-- Python `s.replace(pat, rep)`: replace every non-overlapping occurrence,
scanning left to right. -/
def replaceAll (pat rep l : List Char) : List Char :=
  replaceGo pat rep l.length l

/-- Uppercase-to-lowercase pairs of the ASCII letters. -/
def lowerTable : List (Char × Char) :=
  [('A', 'a'), ('B', 'b'), ('C', 'c'), ('D', 'd'), ('E', 'e'), ('F', 'f'),
   ('G', 'g'), ('H', 'h'), ('I', 'i'), ('J', 'j'), ('K', 'k'), ('L', 'l'),
   ('M', 'm'), ('N', 'n'), ('O', 'o'), ('P', 'p'), ('Q', 'q'), ('R', 'r'),
   ('S', 's'), ('T', 't'), ('U', 'u'), ('V', 'v'), ('W', 'w'), ('X', 'x'),
   ('Y', 'y'), ('Z', 'z')]

/-- First table entry for `c`, or `c` itself when the table has none. -/
def assocLower : List (Char × Char) → Char → Char
  | [], c => c
  | (u, d) :: rest, c => if c = u then d else assocLower rest c

/-- Python `str.lower` on one character, for the ASCII range this program
compares against (`'y'`); no Unicode character outside `A`–`Z` lowercases
to a plain ASCII letter relevant here. -/
def charLower (c : Char) : Char := assocLower lowerTable c

/-- Python `str.lower` of a whole answer string. -/
def strLower (l : List Char) : List Char := l.map charLower

/-! ### Uppercase hexadecimal (`"%02X"`) and the URL builder -/

/-- Uppercase hexadecimal digit character of a value below sixteen, as
produced by `"%X"` (code 65 is `A`, so code 55 + 10 starts the letters). -/
def hexDigitChar (d : Nat) : Char :=
  if d < 10 then Char.ofNat (48 + d) else Char.ofNat (55 + d)

/-- Value of an uppercase hexadecimal digit character. -/
def hexCharVal (c : Char) : Option Nat :=
  if '0' ≤ c ∧ c ≤ '9' then some (c.toNat - 48)
  else if 'A' ≤ c ∧ c ≤ 'F' then some (c.toNat - 55)
  else none

/-- Uppercase hexadecimal representation of `n` (`"%X"`), no padding. -/
def toHexUpper (n : Nat) : List Char :=
  if h : n < 16 then [hexDigitChar n]
  else toHexUpper (n / 16) ++ [hexDigitChar (n % 16)]
decreasing_by exact Nat.div_lt_self (by omega) (by omega)

/-- Accumulating parser for uppercase hexadecimal strings. -/
def parseHexAcc (a : Nat) : List Char → Option Nat
  | [] => some a
  | c :: l =>
    match hexCharVal c with
    | some d => parseHexAcc (16 * a + d) l
    | none => none

/-- Parse an uppercase hexadecimal string. -/
def parseHex (l : List Char) : Option Nat := parseHexAcc 0 l

/-- Zero-pad to a minimum width of two digits (`"%02X"`); wider values are
not truncated. -/
def hex2 (n : Nat) : List Char :=
  if (toHexUpper n).length < 2 then '0' :: toHexUpper n else toHexUpper n

/-- Constant prefix of every issue URL, up to the `0x` hex field. -/
def urlStem : List Char := "http://www.digitalwhisper.co.il/files/Zines/0x".data

/-- Embedding of `Whisperer._generate_issue_url`: the `"%02X"`/`"%d"`
format string instantiated at the issue id. -/
def generate_issue_url (issue_id : Nat) : List Char :=
  urlStem ++ hex2 issue_id ++ "/DigitalWhisper".data ++ natToStr issue_id
    ++ ".pdf".data

/-! ### Python `round(x, 2)` over exact rationals -/

/-- Round-half-to-even on a rational, the rounding Python `round` uses
(floats are modelled as exact rationals). -/
def roundHalfEven (q : ℚ) : ℤ :=
  if q - ⌊q⌋ < 1 / 2 then ⌊q⌋
  else if 1 / 2 < q - ⌊q⌋ then ⌊q⌋ + 1
  else if ⌊q⌋ % 2 = 0 then ⌊q⌋ else ⌊q⌋ + 1

/-- Python `round(q, 2)`. -/
def pyRound2 (q : ℚ) : ℚ := (roundHalfEven (q * 100) : ℚ) / 100

/-- Embedding of `Whisperer._bytes_to_megabytes`:
`round(size / 1000000, 2)`. -/
def bytes_to_megabytes (size : Int) : ℚ :=
  pyRound2 ((size : ℚ) / 1000000)

/-! ### The download queue (a Python `set` of ids) -/

/-- Queue contents, modelled as a duplicate-free insertion list standing
for the Python `set`. -/
abbrev Queue := List Int

/-- Embedding of `Whisperer.add_issue_id` (`set.add`): a no-op on an id
that is already present. -/
def add_issue_id (q : Queue) (issue_id : Int) : Queue :=
  if issue_id ∈ q then q else q ++ [issue_id]

/-- Embedding of `Whisperer.add_issue_id_range` (`set.update`). -/
def add_issue_id_range (q : Queue) (issue_id_range : List Int) : Queue :=
  issue_id_range.foldl add_issue_id q

/-- Python `range(a, b)`: the integers `a, a+1, …, b-1`, empty if `b ≤ a`. -/
def pyRange (a b : Int) : List Int :=
  (List.range (b - a).toNat).map (fun k : Nat => a + (k : Int))

/-- Python `sorted` on the queue: ascending order. -/
def pySorted (q : Queue) : List Int :=
  List.insertionSort (fun a b : Int => a ≤ b) q

/-! ### Latest-issue resolver with its process-lifetime cache -/

/-- Embedding of `Whisperer.FIRST_ISSUE_ID`. -/
def FIRST_ISSUE_ID : Nat := 1

/-- Mutable state of a `Whisperer` instance that the claims concern: the
download queue and the memoized latest-issue id. -/
structure MState where
  download_queue : Queue
  last_issue_id_cache : Option Nat
  deriving DecidableEq

/-- Embedding of `Whisperer._get_last_issue_id`.  `renv` is the result the
regex search would produce on the fetched index page (`none` = pattern not
found).  Returns the resolved value, the new state, and whether a network
fetch was performed.  On a cache hit the cached value is returned with no
fetch; a successful fetch stores the parsed id in the cache; a failed
pattern search reports an error and leaves the cache absent. -/
def get_last_issue_id (renv : Option Nat) (s : MState) :
    Option Nat × MState × Bool :=
  match s.last_issue_id_cache with
  | some v => (some v, s, false)
  | none =>
    match renv with
    | some d => (some d, { s with last_issue_id_cache := some d }, true)
    | none => (none, s, true)

/-! ### Fatal paths of `main` before the download phase -/

/-- Fatal terminations of `main` before `download()` is reached: an
explicit `exit(1)` after a message on the error stream, or an uncaught
Python exception (which also leaves exit status 1 and a traceback on the
error stream). -/
inductive Abort where
  | userError (msg : List Char)
  | uncaughtValueError
  deriving DecidableEq

/-- Error-stream message of the misused-`all` fatal path (the source
quotes the keyword with apostrophes, elided here). -/
def allMisuseMsg : List Char := "Error: all cannot be used as part of a range".data

/-- The keyword token `all`. -/
def allKw : List Char := ['a', 'l', 'l']

/-- The keyword token `last`. -/
def lastKw : List Char := ['l', 'a', 's', 't']

/-- Keyword-substitution block of the range loop in `main`: the literal
token `all` becomes `str(FIRST_ISSUE_ID) + "-" + str(last_issue_id)` after
consulting the resolver; `all` inside a larger token prints to the error
stream and exits 1; otherwise every occurrence of `last` is replaced by
`str(last_issue_id)`. -/
def substituteTok (renv : Option Nat) (s : MState) (tok : List Char) :
    Except Abort (MState × List Char) :=
  if strIn allKw tok then
    if tok = allKw then
      let r := get_last_issue_id renv s
      .ok (r.2.1, natToStr FIRST_ISSUE_ID ++ '-' :: pyStrOpt r.1)
    else .error (.userError allMisuseMsg)
  else if strIn lastKw tok then
    let r := get_last_issue_id renv s
    .ok (r.2.1, replaceAll lastKw (pyStrOpt r.1) tok)
  else .ok (s, tok)

/-- Expansion block of the range loop in `main`: a token with a dash is
split and expanded through `range(int(start), int(finish) + 1)`; otherwise
it is a single id.  A malformed `int` or a dash split that does not
produce exactly two fields raises `ValueError`, uncaught. -/
def expandTok (s2 : MState) (tok2 : List Char) : Except Abort MState :=
  if '-' ∈ tok2 then
    match splitOnChar '-' tok2 with
    | [a, b] =>
      match pyInt a, pyInt b with
      | some x, some y =>
        .ok { s2 with
              download_queue :=
                add_issue_id_range s2.download_queue (pyRange x (y + 1)) }
      | _, _ => .error .uncaughtValueError
    | _ => .error .uncaughtValueError
  else
    match pyInt tok2 with
    | some x => .ok { s2 with download_queue := add_issue_id s2.download_queue x }
    | none => .error .uncaughtValueError

/-- Embedding of one iteration of the range loop in `main`. -/
def processToken (renv : Option Nat) (s : MState) (tok : List Char) :
    Except Abort MState :=
  match substituteTok renv s tok with
  | .error a => .error a
  | .ok (s2, tok2) => expandTok s2 tok2

/-- Left-to-right processing of the comma-separated tokens. -/
def processTokens (renv : Option Nat) : MState → List (List Char) → Except Abort MState
  | s, [] => .ok s
  | s, t :: ts =>
    match processToken renv s t with
    | .error a => .error a
    | .ok s2 => processTokens renv s2 ts

/-- Embedding of the range-expansion phase of `main` on the `--range`
value: split on commas, process every token, and return the final download
queue if no fatal path was taken. -/
def runMain (renv : Option Nat) (spec : List Char) : Except Abort Queue :=
  (processTokens renv ⟨[], none⟩ (splitOnChar ',' spec)).map MState.download_queue

/-! ### The download phase -/

/-- Exception classes raised by a fetch, as seen by the `except` clause of
`Whisperer.download`: `HTTPError` and `URLError` are caught there
(`HTTPError` subclasses `URLError`); any other exception is not. -/
inductive FetchErr where
  | http (code : Nat)
  | urlErr
  | generic
  deriving DecidableEq

/-- Python exceptions that can escape `_download_issue`. -/
inductive PyExn where
  | fetchRaised (f : FetchErr)
  | typeError
  deriving DecidableEq

/-- Whether `except urllib.error.URLError` in `Whisperer.download` catches
the exception. -/
def caughtByLoop : PyExn → Bool
  | .fetchRaised (.http _) => true
  | .fetchRaised .urlErr => true
  | .fetchRaised .generic => false
  | .typeError => false

/-- Effect of one `_download_issue` call on the target file. -/
inductive FileAction where
  | untouched
  | truncated
  | written (body : List Nat)
  deriving DecidableEq

/-- Environment of a single issue's download attempt: whether the target
file exists, the two interactive answers that would be read if prompted,
and the fetch outcome (body bytes and the optional `Content-Length`
header string). -/
structure IssueEnv where
  fileExists : Bool
  overwriteAnswer : List Char
  contAnswer : List Char
  fetchResult : Except FetchErr (List Nat × Option (List Char))

/-- Observable result of one `_download_issue` call: whether a fetch was
attempted, the effect on the target file, the size reported on success
(in megabytes), and the exception propagating out, if any. -/
structure IssueResult where
  fetched : Bool
  action : FileAction
  reported : Option ℚ
  exn : Option PyExn
  deriving DecidableEq

/-- Fetch-and-write tail of `_download_issue`, entered once the
overwrite/skip policy allows the download.  Mirrors the source order: the
fetch may raise; otherwise `open(out_path, "wb")` truncates the target
first, then `int(data[1])` converts the `Content-Length` header — raising
`TypeError` when the header is absent (`int(None)`) before any byte of the
body is written — and on success the body is written in full. -/
def fetchAndWrite (e : IssueEnv) : IssueResult :=
  match e.fetchResult with
  | .error f => ⟨true, .untouched, none, some (.fetchRaised f)⟩
  | .ok (body, clen) =>
    match clen with
    | none => ⟨true, .truncated, none, some .typeError⟩
    | some s =>
      match pyInt s with
      | none => ⟨true, .truncated, none, some .typeError⟩
      | some c => ⟨true, .written body, some (bytes_to_megabytes c), none⟩

/-- Embedding of `Whisperer._download_issue` for one issue id: the
existing-file policy (skip flag, then the overwrite prompt where only an
answer lowering to `y` proceeds), then `fetchAndWrite`. -/
def download_issue (overwrite skip : Bool) (e : IssueEnv) : IssueResult :=
  if !overwrite && e.fileExists then
    if skip then ⟨false, .untouched, none, none⟩
    else if strLower e.overwriteAnswer = ['y'] then fetchAndWrite e
    else ⟨false, .untouched, none, none⟩
  else fetchAndWrite e

/-- Guard of `_download_issue` that decides whether the fetch is reached:
the overwrite flag is set, or the file does not exist, or the skip flag is
unset and the prompt answer lowers to `y`. -/
def reachesFetch (overwrite skip : Bool) (e : IssueEnv) : Bool :=
  if !overwrite && e.fileExists then !skip && (strLower e.overwriteAnswer = ['y'])
  else true

/-- Embedding of `Whisperer.download`: iterate the sorted queue; an
exception caught by the loop triggers the continue prompt (a non-`y`
answer breaks out of the loop, which is a normal return), while an
uncaught exception aborts the whole process.  Returns the per-issue
results in processing order and the uncaught exception, if any. -/
def download (overwrite skip : Bool) (env : Int → IssueEnv) :
    List Int → List (Int × IssueResult) × Option PyExn
  | [] => ([], none)
  | i :: rest =>
    match (download_issue overwrite skip (env i)).exn with
    | none =>
      ((i, download_issue overwrite skip (env i)) ::
          (download overwrite skip env rest).1,
        (download overwrite skip env rest).2)
    | some ex =>
      if caughtByLoop ex then
        if strLower (env i).contAnswer = ['y'] then
          ((i, download_issue overwrite skip (env i)) ::
              (download overwrite skip env rest).1,
            (download overwrite skip env rest).2)
        else ([(i, download_issue overwrite skip (env i))], none)
      else ([(i, download_issue overwrite skip (env i))], some ex)

/-- Whether one loop iteration neither breaks nor crashes, so that the
loop moves on to the next queue item. -/
def stepContinues (overwrite skip : Bool) (e : IssueEnv) : Bool :=
  match (download_issue overwrite skip e).exn with
  | none => true
  | some ex => caughtByLoop ex && (strLower e.contAnswer = ['y'])

/-- Per-issue results of a fully traversed segment of the queue. -/
def procOf (overwrite skip : Bool) (env : Int → IssueEnv) (l : List Int) :
    List (Int × IssueResult) :=
  l.map (fun i => (i, download_issue overwrite skip (env i)))

/-! ### The whole process -/

/-- Outcome of one whole process run. -/
inductive RunOutcome where
  | abort (a : Abort)
  | crash (processed : List (Int × IssueResult)) (e : PyExn)
  | success (processed : List (Int × IssueResult))
  deriving DecidableEq

/-- Embedding of `main` end to end: range expansion, then the download
loop over the sorted queue, then `print("All Done!")`.  An `Abort` skips
the download phase entirely; an exception uncaught by the loop skips the
final print and kills the process. -/
def runWhisperer (renv : Option Nat) (spec : List Char)
    (overwrite skip : Bool) (env : Int → IssueEnv) : RunOutcome :=
  match runMain renv spec with
  | .error a => .abort a
  | .ok q =>
    match download overwrite skip env (pySorted q) with
    | (proc, none) => .success proc
    | (proc, some e) => .crash proc e

/-- Process exit status of an outcome (uncaught Python exceptions exit
with status 1, as does `exit(1)`). -/
def exitCode : RunOutcome → Nat
  | .abort _ => 1
  | .crash _ _ => 1
  | .success _ => 0

/-- Whether the run reaches the final `print("All Done!")`. -/
def printsAllDone : RunOutcome → Bool
  | .success _ => true
  | _ => false

/-- Issue ids whose download was attempted during the run. -/
def attemptedIds : RunOutcome → List Int
  | .abort _ => []
  | .crash proc _ => proc.map Prod.fst
  | .success proc => proc.map Prod.fst

/-! ### Concrete environments used by instance checks -/

/-- Environment of an issue whose target file is absent and whose fetch
fails at the transport level; both prompts would be answered `n`. -/
def failEnv : IssueEnv := ⟨false, ['n'], ['n'], .error .urlErr⟩

/-- Environment of an issue whose target file exists; the overwrite
prompt would be answered `Y`. -/
def promptEnv : IssueEnv := ⟨true, ['Y'], ['n'], .error .urlErr⟩

/-- Environment of an issue whose fetch succeeds with a two-byte body and
a matching `Content-Length` header. -/
def okEnv : IssueEnv := ⟨false, [], [], .ok ([7, 7], some ['2'])⟩

/-- Environment of an issue whose fetch succeeds but whose response
carries no `Content-Length` header. -/
def noLenEnv : IssueEnv := ⟨false, [], [], .ok ([7], none)⟩

/-! ## Lemmas about digits, `natToStr` and parsing -/

/-- Parsing inverts the digit table below 10. -/
theorem parseDigit_digitChar (d : Nat) (h : d < 10) :
    parseDigit (digitChar d) = some d := by
  interval_cases d <;> decide

/-- Digit strings produced by `natToStr` consist of decimal digits. -/
theorem natToStr_digits (n : Nat) : ∀ c ∈ natToStr n, (parseDigit c).isSome := by
  induction n using Nat.strong_induction_on with
  | _ n ih =>
    rw [natToStr]
    split
    · intro c hc
      rw [List.mem_singleton] at hc
      subst hc
      rw [parseDigit_digitChar _ (by omega)]
      rfl
    · intro c hc
      rcases List.mem_append.mp hc with h1 | h1
      · exact ih (n / 10) (Nat.div_lt_self (by omega) (by omega)) c h1
      · rw [List.mem_singleton] at h1
        subst h1
        rw [parseDigit_digitChar _ (Nat.mod_lt _ (by omega))]
        rfl

/-- A decimal rendering is never empty. -/
theorem natToStr_ne_nil (n : Nat) : natToStr n ≠ [] := by
  rw [natToStr]
  split <;> simp

/-- Folding one more digit multiplies the accumulated value by ten. -/
theorem decVal_append (l : List Char) (c : Char) :
    decVal (l ++ [c]) = 10 * decVal l + (parseDigit c).getD 0 := by
  unfold decVal
  rw [List.foldl_append]
  rfl

/-- The decimal value of `natToStr n` is `n`. -/
theorem decVal_natToStr (n : Nat) : decVal (natToStr n) = n := by
  induction n using Nat.strong_induction_on with
  | _ n ih =>
    rw [natToStr]
    split
    · unfold decVal
      simp [parseDigit_digitChar n (by omega)]
    · rw [decVal_append, ih (n / 10) (Nat.div_lt_self (by omega) (by omega)),
        parseDigit_digitChar _ (Nat.mod_lt _ (by omega))]
      simp
      omega

/-- Round trip: parsing the decimal rendering of `n` gives back `n`. -/
theorem parseNatDigits_natToStr (n : Nat) :
    parseNatDigits (natToStr n) = some n := by
  unfold parseNatDigits
  rw [if_pos, decVal_natToStr]
  exact ⟨natToStr_ne_nil n, List.all_eq_true.mpr (natToStr_digits n)⟩

/-- Inversion of a successful `parseNatDigits`. -/
theorem parseNatDigits_inv {l : List Char} {n : Nat}
    (h : parseNatDigits l = some n) :
    l ≠ [] ∧ (∀ c ∈ l, (parseDigit c).isSome) ∧ decVal l = n := by
  unfold parseNatDigits at h
  split at h
  · rename_i hcond
    exact ⟨hcond.1, List.all_eq_true.mp hcond.2, by injection h⟩
  · exact absurd h (by simp)

/-- A decimal digit character is distinct from any character the digit
table rejects. -/
theorem digit_ne_of_none {c x : Char} (hc : (parseDigit c).isSome)
    (hx : parseDigit x = none) : c ≠ x := by
  intro h
  subst h
  rw [hx] at hc
  exact absurd hc (by simp)

/-- Python `int` on a plain digit string agrees with `parseNatDigits`. -/
theorem pyInt_digits {l : List Char} {n : Nat}
    (h : parseNatDigits l = some n) : pyInt l = some (n : Int) := by
  obtain ⟨hne, hdig, _⟩ := parseNatDigits_inv h
  obtain ⟨c, l', rfl⟩ := List.exists_cons_of_ne_nil hne
  have hc : (parseDigit c).isSome := hdig c (List.mem_cons_self c l')
  unfold pyInt
  rw [if_neg, if_neg]
  · rw [h]
    rfl
  · simp only [List.head?_cons, Option.some.injEq]
    exact digit_ne_of_none hc (by rfl)
  · simp only [List.head?_cons, Option.some.injEq]
    exact digit_ne_of_none hc (by rfl)

/-! ## Lemmas about `splitOnChar`, `leadsWith`, `strIn`, `strLower` -/

/-- Splitting never produces an empty list of fields. -/
theorem splitOnChar_ne_nil (c : Char) (l : List Char) : splitOnChar c l ≠ [] := by
  cases l with
  | nil => simp [splitOnChar]
  | cons x xs =>
    unfold splitOnChar
    split
    · simp
    · split
      · simp
      · simp

/-- A string free of the separator is a single field. -/
theorem splitOnChar_eq_single {c : Char} {l : List Char} (h : c ∉ l) :
    splitOnChar c l = [l] := by
  induction l with
  | nil => rfl
  | cons x xs ih =>
    have hx : x ≠ c := fun hc => h (hc ▸ List.mem_cons_self x xs)
    have hxs : c ∉ xs := fun hc => h (List.mem_cons_of_mem x hc)
    simp [splitOnChar, hx, ih hxs]

/-- Splitting at the first separator occurrence peels off the first field. -/
theorem splitOnChar_sep {c : Char} {l1 : List Char} (l2 : List Char)
    (h : c ∉ l1) :
    splitOnChar c (l1 ++ c :: l2) = l1 :: splitOnChar c l2 := by
  induction l1 with
  | nil => simp [splitOnChar]
  | cons x xs ih =>
    have hx : x ≠ c := fun hc => h (hc ▸ List.mem_cons_self x xs)
    have hxs : c ∉ xs := fun hc => h (List.mem_cons_of_mem x hc)
    rw [List.cons_append]
    simp [splitOnChar, hx, ih hxs]

/-- A leading segment is contained in the whole. -/
theorem leadsWith_subset {p l : List Char} (h : leadsWith p l = true) :
    ∀ x ∈ p, x ∈ l := by
  induction p generalizing l with
  | nil => simp
  | cons a as ih =>
    cases l with
    | nil => exact absurd h (by simp [leadsWith])
    | cons b bs =>
      unfold leadsWith at h
      rw [Bool.and_eq_true, decide_eq_true_iff] at h
      intro x hx
      rcases List.mem_cons.mp hx with rfl | hx
      · rw [h.1]
        exact List.mem_cons_self b bs
      · exact List.mem_cons_of_mem b (ih h.2 x hx)

/-- A substring is contained in the subject string. -/
theorem strIn_subset {p l : List Char} (h : strIn p l = true) :
    ∀ x ∈ p, x ∈ l := by
  induction l with
  | nil =>
    unfold strIn at h
    rw [List.isEmpty_iff] at h
    subst h
    simp
  | cons b bs ih =>
    unfold strIn at h
    rw [Bool.or_eq_true] at h
    rcases h with h | h
    · exact leadsWith_subset h
    · exact fun x hx => List.mem_cons_of_mem b (ih h x hx)

/-- Containment fails whenever the pattern has a character the subject
lacks. -/
theorem strIn_eq_false {p l : List Char} {x : Char} (hx : x ∈ p)
    (hl : x ∉ l) : strIn p l = false := by
  cases h : strIn p l
  · rfl
  · exact absurd (strIn_subset h x hx) hl

/-- A table hit traces back to a table entry. -/
theorem assocLower_inv (t : List (Char × Char)) (c d : Char)
    (h : assocLower t c = d) : c = d ∨ (c, d) ∈ t := by
  induction t with
  | nil => exact Or.inl h
  | cons p rest ih =>
    obtain ⟨u, v⟩ := p
    unfold assocLower at h
    by_cases hc : c = u
    · rw [if_pos hc] at h
      exact Or.inr (by rw [hc, h]; exact List.mem_cons_self _ _)
    · rw [if_neg hc] at h
      rcases ih h with h1 | h1
      · exact Or.inl h1
      · exact Or.inr (List.mem_cons_of_mem _ h1)

/-- Lowercasing a character yields `y` exactly for `y` and `Y`. -/
theorem charLower_eq_y (c : Char) : charLower c = 'y' ↔ c = 'y' ∨ c = 'Y' := by
  constructor
  · intro h
    rcases assocLower_inv lowerTable c 'y' h with h1 | h1
    · exact Or.inl h1
    · have hy : ∀ p ∈ lowerTable, p.2 = 'y' → p.1 = 'Y' := by decide
      exact Or.inr (hy _ h1 rfl)
  · rintro (rfl | rfl) <;> rfl

/-- Lowercasing an answer yields `"y"` exactly for `"y"` and `"Y"`;
this is the affirmative test of both interactive prompts. -/
theorem strLower_eq_y (l : List Char) :
    strLower l = ['y'] ↔ l = ['y'] ∨ l = ['Y'] := by
  constructor
  · intro h
    unfold strLower at h
    cases l with
    | nil => exact absurd h (by simp)
    | cons c cs =>
      rw [List.map_cons, List.cons_eq_cons] at h
      have hcs : cs = [] := List.map_eq_nil_iff.mp h.2
      subst hcs
      rcases (charLower_eq_y c).mp h.1 with rfl | rfl
      · exact Or.inl rfl
      · exact Or.inr rfl
  · rintro (rfl | rfl) <;> rfl

/-! ## Lemmas about hexadecimal rendering -/

/-- Parsing inverts the hex digit table below 16. -/
theorem hexCharVal_hexDigitChar (d : Nat) (h : d < 16) :
    hexCharVal (hexDigitChar d) = some d := by
  interval_cases d <;> decide

/-- A hexadecimal rendering is never empty. -/
theorem toHexUpper_ne_nil (n : Nat) : toHexUpper n ≠ [] := by
  rw [toHexUpper]
  split <;> simp

/-- Hex strings produced by `toHexUpper` consist of hex digits. -/
theorem toHexUpper_digits (n : Nat) :
    ∀ c ∈ toHexUpper n, (hexCharVal c).isSome := by
  induction n using Nat.strong_induction_on with
  | _ n ih =>
    rw [toHexUpper]
    split
    · intro c hc
      rw [List.mem_singleton] at hc
      subst hc
      rw [hexCharVal_hexDigitChar _ (by omega)]
      rfl
    · intro c hc
      rcases List.mem_append.mp hc with h1 | h1
      · exact ih (n / 16) (Nat.div_lt_self (by omega) (by omega)) c h1
      · rw [List.mem_singleton] at h1
        subst h1
        rw [hexCharVal_hexDigitChar _ (Nat.mod_lt _ (by omega))]
        rfl

/-- The accumulating parser distributes over appending one digit. -/
theorem parseHexAcc_append_digit (l : List Char) (c : Char) :
    ∀ a, parseHexAcc a (l ++ [c]) =
      (parseHexAcc a l).bind
        (fun v => (hexCharVal c).map (fun d => 16 * v + d)) := by
  induction l with
  | nil =>
    intro a
    unfold parseHexAcc
    cases hc : hexCharVal c <;> simp [parseHexAcc, hc]
  | cons x xs ih =>
    intro a
    rw [List.cons_append]
    unfold parseHexAcc
    cases hx : hexCharVal x
    · rfl
    · exact ih _

/-- Round trip: parsing the hex rendering of `n` gives back `n`. -/
theorem parseHex_toHexUpper (n : Nat) : parseHex (toHexUpper n) = some n := by
  induction n using Nat.strong_induction_on with
  | _ n ih =>
    rw [toHexUpper]
    split
    · rename_i h
      unfold parseHex parseHexAcc
      rw [hexCharVal_hexDigitChar n h]
      simp [parseHexAcc]
    · rename_i h
      unfold parseHex at *
      rw [parseHexAcc_append_digit,
        ih (n / 16) (Nat.div_lt_self (by omega) (by omega)),
        hexCharVal_hexDigitChar _ (Nat.mod_lt _ (by omega))]
      simp
      omega

/-- Round trip through the two-digit zero padding. -/
theorem parseHex_hex2 (n : Nat) : parseHex (hex2 n) = some n := by
  unfold hex2
  split
  · show parseHexAcc 0 ('0' :: toHexUpper n) = some n
    unfold parseHexAcc
    rw [show hexCharVal '0' = some 0 from rfl]
    show parseHexAcc (16 * 0 + 0) (toHexUpper n) = some n
    norm_num
    exact parseHex_toHexUpper n
  · exact parseHex_toHexUpper n

/-- The padded field is at least two digits wide. -/
theorem hex2_length (n : Nat) : 2 ≤ (hex2 n).length := by
  unfold hex2
  split
  · rename_i h
    have := List.length_pos.mpr (toHexUpper_ne_nil n)
    simp only [List.length_cons]
    omega
  · omega

/-- Every character of the padded field is an uppercase hex digit. -/
theorem hex2_digits (n : Nat) : ∀ c ∈ hex2 n, (hexCharVal c).isSome := by
  unfold hex2
  split
  · intro c hc
    rcases List.mem_cons.mp hc with rfl | hc
    · rfl
    · exact toHexUpper_digits n c hc
  · exact toHexUpper_digits n

/-! ## Lemmas about the queue and `pyRange` -/

/-- Membership after `set.add`. -/
theorem mem_add_issue_id (q : Queue) (i j : Int) :
    j ∈ add_issue_id q i ↔ j ∈ q ∨ j = i := by
  unfold add_issue_id
  split
  · rename_i h
    constructor
    · exact Or.inl
    · rintro (hj | rfl)
      · exact hj
      · exact h
  · simp

/-- Membership after `set.update`. -/
theorem mem_add_issue_id_range (q : Queue) (r : List Int) (j : Int) :
    j ∈ add_issue_id_range q r ↔ j ∈ q ∨ j ∈ r := by
  induction r generalizing q with
  | nil => simp [add_issue_id_range]
  | cons x xs ih =>
    unfold add_issue_id_range at *
    rw [List.foldl_cons, ih (add_issue_id q x), mem_add_issue_id]
    simp only [List.mem_cons]
    tauto

/-- `set.add` preserves freedom from duplicates. -/
theorem nodup_add_issue_id (q : Queue) (i : Int) (h : q.Nodup) :
    (add_issue_id q i).Nodup := by
  unfold add_issue_id
  split
  · exact h
  · rename_i hn
    rw [List.nodup_append]
    refine ⟨h, List.nodup_singleton i, fun a ha hb => ?_⟩
    rw [List.mem_singleton] at hb
    subst hb
    exact hn ha

/-- `set.update` preserves freedom from duplicates. -/
theorem nodup_add_issue_id_range (q : Queue) (r : List Int) (h : q.Nodup) :
    (add_issue_id_range q r).Nodup := by
  induction r generalizing q with
  | nil => exact h
  | cons x xs ih => exact ih _ (nodup_add_issue_id _ _ h)

/-- Membership in `range(a, b)`. -/
theorem mem_pyRange (a b i : Int) : i ∈ pyRange a b ↔ a ≤ i ∧ i < b := by
  unfold pyRange
  rw [List.mem_map]
  constructor
  · rintro ⟨k, hk, rfl⟩
    rw [List.mem_range] at hk
    omega
  · intro h
    refine ⟨(i - a).toNat, ?_, ?_⟩
    · rw [List.mem_range]
      omega
    · omega

/-! ## Lemmas about the range-expansion phase of `main` -/

/-- The resolver never touches the download queue. -/
theorem get_last_issue_id_queue (renv : Option Nat) (s : MState) :
    ((get_last_issue_id renv s).2.1).download_queue = s.download_queue := by
  unfold get_last_issue_id
  split
  · rfl
  · split
    · rfl
    · rfl

/-- Keyword substitution never touches the download queue. -/
theorem substituteTok_queue {renv : Option Nat} {s : MState} {tok : List Char}
    {s2 : MState} {tok2 : List Char}
    (h : substituteTok renv s tok = .ok (s2, tok2)) :
    s2.download_queue = s.download_queue := by
  unfold substituteTok at h
  split at h
  · split at h
    · simp only [Except.ok.injEq, Prod.mk.injEq] at h
      rw [← h.1]
      exact get_last_issue_id_queue renv s
    · exact absurd h (by simp)
  · split at h
    · simp only [Except.ok.injEq, Prod.mk.injEq] at h
      rw [← h.1]
      exact get_last_issue_id_queue renv s
    · simp only [Except.ok.injEq, Prod.mk.injEq] at h
      rw [← h.1]

/-- Token expansion preserves freedom from duplicates in the queue. -/
theorem expandTok_nodup {s2 : MState} {tok2 : List Char} {s3 : MState}
    (hq : s2.download_queue.Nodup) (h : expandTok s2 tok2 = .ok s3) :
    s3.download_queue.Nodup := by
  unfold expandTok at h
  split at h
  · split at h
    · split at h
      · simp only [Except.ok.injEq] at h
        subst h
        exact nodup_add_issue_id_range _ _ hq
      · exact absurd h (by simp)
    · exact absurd h (by simp)
  · split at h
    · simp only [Except.ok.injEq] at h
      subst h
      exact nodup_add_issue_id _ _ hq
    · exact absurd h (by simp)

/-- One loop iteration preserves freedom from duplicates in the queue. -/
theorem processToken_nodup {renv : Option Nat} {s : MState} {tok : List Char}
    {s2 : MState} (hq : s.download_queue.Nodup)
    (h : processToken renv s tok = .ok s2) : s2.download_queue.Nodup := by
  unfold processToken at h
  cases hsub : substituteTok renv s tok with
  | error a =>
    rw [hsub] at h
    exact absurd h (by simp)
  | ok p =>
    obtain ⟨s1, tok2⟩ := p
    rw [hsub] at h
    exact expandTok_nodup (substituteTok_queue hsub ▸ hq) h

/-- The whole range loop preserves freedom from duplicates in the queue. -/
theorem processTokens_nodup {renv : Option Nat} :
    ∀ {ts : List (List Char)} {s s2 : MState}, s.download_queue.Nodup →
      processTokens renv s ts = .ok s2 → s2.download_queue.Nodup := by
  intro ts
  induction ts with
  | nil =>
    intro s s2 h hp
    unfold processTokens at hp
    simp only [Except.ok.injEq] at hp
    subst hp
    exact h
  | cons t ts ih =>
    intro s s2 h hp
    unfold processTokens at hp
    cases hpt : processToken renv s t with
    | error a =>
      rw [hpt] at hp
      exact absurd hp (by simp)
    | ok s1 =>
      rw [hpt] at hp
      exact ih (processToken_nodup h hpt) hp

/-- The queue `main` hands to the download phase is duplicate-free. -/
theorem runMain_nodup {renv : Option Nat} {spec : List Char} {q : Queue}
    (h : runMain renv spec = .ok q) : q.Nodup := by
  unfold runMain at h
  cases hp : processTokens renv ⟨[], none⟩ (splitOnChar ',' spec) with
  | error a =>
    rw [hp] at h
    exact absurd h (by simp [Except.map])
  | ok s =>
    rw [hp] at h
    simp only [Except.map, Except.ok.injEq] at h
    exact h ▸ processTokens_nodup (by simp) hp

/-- A token that contains `all` without being `all` makes its loop
iteration fatal. -/
theorem processToken_all_misuse {renv : Option Nat} {tok : List Char}
    (hin : strIn allKw tok = true) (hne : tok ≠ allKw) (s : MState) :
    processToken renv s tok = .error (.userError allMisuseMsg) := by
  unfold processToken substituteTok
  rw [if_pos hin, if_neg hne]

/-- If any token of the list misuses `all`, the whole range loop ends in a
fatal path, whatever happened on the earlier tokens. -/
theorem processTokens_all_misuse {renv : Option Nat} {tok : List Char}
    (hin : strIn allKw tok = true) (hne : tok ≠ allKw) :
    ∀ {ts : List (List Char)}, tok ∈ ts → ∀ s : MState,
      ∃ a, processTokens renv s ts = .error a := by
  intro ts
  induction ts with
  | nil => exact fun h => absurd h (List.not_mem_nil tok)
  | cons t ts ih =>
    intro hmem s
    rcases List.mem_cons.mp hmem with rfl | hmem
    · refine ⟨.userError allMisuseMsg, ?_⟩
      unfold processTokens
      rw [processToken_all_misuse hin hne]
    · unfold processTokens
      cases hpt : processToken renv s t with
      | error a => exact ⟨a, rfl⟩
      | ok s1 => exact ih hmem s1

/-! ## Lemmas about the download phase -/

/-- The fetch-and-write tail always performs the fetch. -/
theorem fetchAndWrite_fetched (e : IssueEnv) : (fetchAndWrite e).fetched = true := by
  unfold fetchAndWrite
  split
  · rfl
  · split
    · rfl
    · split
      · rfl
      · rfl

/-- When the policy guard allows it, `_download_issue` runs its
fetch-and-write tail. -/
theorem download_issue_eq_fetchAndWrite {overwrite skip : Bool} {e : IssueEnv}
    (h : reachesFetch overwrite skip e = true) :
    download_issue overwrite skip e = fetchAndWrite e := by
  unfold download_issue
  unfold reachesFetch at h
  split at h
  · rename_i hg
    rw [if_pos hg, Bool.and_eq_true, Bool.not_eq_true', decide_eq_true_iff] at *
    rw [if_neg (by rw [h.1]; exact Bool.false_ne_true), if_pos h.2]
  · rename_i hg
    rw [if_neg hg]

/-- One-step unfolding of the loop on a non-empty queue. -/
theorem download_cons_eq (overwrite skip : Bool) (env : Int → IssueEnv)
    (i : Int) (rest : List Int) :
    download overwrite skip env (i :: rest) =
      (match (download_issue overwrite skip (env i)).exn with
       | none =>
         ((i, download_issue overwrite skip (env i)) ::
             (download overwrite skip env rest).1,
           (download overwrite skip env rest).2)
       | some ex =>
         if caughtByLoop ex then
           if strLower (env i).contAnswer = ['y'] then
             ((i, download_issue overwrite skip (env i)) ::
                 (download overwrite skip env rest).1,
               (download overwrite skip env rest).2)
           else ([(i, download_issue overwrite skip (env i))], none)
         else ([(i, download_issue overwrite skip (env i))], some ex)) := rfl

/-- A continuing iteration prepends its result and recurses. -/
theorem download_cons_cont {overwrite skip : Bool} {env : Int → IssueEnv}
    {i : Int} (h : stepContinues overwrite skip (env i) = true)
    (rest : List Int) :
    download overwrite skip env (i :: rest) =
      ((i, download_issue overwrite skip (env i)) ::
          (download overwrite skip env rest).1,
        (download overwrite skip env rest).2) := by
  unfold stepContinues at h
  rw [download_cons_eq]
  cases hx : (download_issue overwrite skip (env i)).exn with
  | none => simp only [hx]
  | some ex =>
    simp only [hx, Bool.and_eq_true, decide_eq_true_iff] at h
    simp only [hx]
    rw [if_pos h.1, if_pos h.2]

/-- The loop walks through a segment of continuing iterations. -/
theorem download_append {overwrite skip : Bool} {env : Int → IssueEnv}
    (l1 l2 : List Int)
    (h : ∀ i ∈ l1, stepContinues overwrite skip (env i) = true) :
    download overwrite skip env (l1 ++ l2) =
      (procOf overwrite skip env l1 ++ (download overwrite skip env l2).1,
        (download overwrite skip env l2).2) := by
  induction l1 with
  | nil => simp [procOf]
  | cons i is ih =>
    have h1 := h i (List.mem_cons_self i is)
    have h2 : ∀ j ∈ is, stepContinues overwrite skip (env j) = true :=
      fun j hj => h j (List.mem_cons_of_mem i hj)
    rw [List.cons_append, download_cons_cont h1, ih h2]
    simp [procOf]

/-- Whatever happens, the ids attempted by the loop are an initial segment
of the queue it was handed. -/
theorem download_ids_initial (overwrite skip : Bool) (env : Int → IssueEnv) :
    ∀ l : List Int,
      ∃ rest, (download overwrite skip env l).1.map Prod.fst ++ rest = l := by
  intro l
  induction l with
  | nil => exact ⟨[], rfl⟩
  | cons i is ih =>
    obtain ⟨rest, hrest⟩ := ih
    cases hx : (download_issue overwrite skip (env i)).exn with
    | none =>
      refine ⟨rest, ?_⟩
      rw [download_cons_eq]
      simp only [hx, List.map_cons, List.cons_append]
      rw [hrest]
    | some ex =>
      by_cases hc : caughtByLoop ex = true
      · by_cases hy : strLower (env i).contAnswer = ['y']
        · refine ⟨rest, ?_⟩
          rw [download_cons_eq]
          simp only [hx]
          rw [if_pos hc, if_pos hy]
          simp only [List.map_cons, List.cons_append]
          rw [hrest]
        · refine ⟨is, ?_⟩
          rw [download_cons_eq]
          simp only [hx]
          rw [if_pos hc, if_neg hy]
          simp
      · refine ⟨is, ?_⟩
        rw [download_cons_eq]
        simp only [hx]
        rw [if_neg hc]
        simp

/-! ## Processing of concrete well-formed tokens -/

/-- A character rejected by the digit table cannot occur in a digit
string. -/
theorem not_mem_of_digits {l : List Char} (x : Char)
    (hd : ∀ c ∈ l, (parseDigit c).isSome)
    (hx : parseDigit x = none) : x ∉ l :=
  fun hmem => (digit_ne_of_none (hd x hmem) hx) rfl

/-- One-step unfolding of the range loop on a non-empty token list. -/
theorem processTokens_cons_eq (renv : Option Nat) (s : MState)
    (t : List Char) (ts : List (List Char)) :
    processTokens renv s (t :: ts) =
      (match processToken renv s t with
       | .error a => .error a
       | .ok s2 => processTokens renv s2 ts) := rfl

/-- Processing a token made of two plain decimal fields joined by a dash
expands it through `range(int(start), int(finish) + 1)` into the queue. -/
theorem processToken_dash {renv : Option Nat} {sa sb : List Char} {a b : Nat}
    (ha : parseNatDigits sa = some a) (hb : parseNatDigits sb = some b)
    (s : MState) :
    processToken renv s (sa ++ '-' :: sb) =
      .ok { s with
            download_queue :=
              add_issue_id_range s.download_queue
                (pyRange ((a : Nat) : Int) (((b : Nat) : Int) + 1)) } := by
  obtain ⟨hna, hda, _⟩ := parseNatDigits_inv ha
  obtain ⟨hnb, hdb, _⟩ := parseNatDigits_inv hb
  have hatok : 'a' ∉ sa ++ '-' :: sb := by
    intro hm
    rcases List.mem_append.mp hm with hm | hm
    · exact not_mem_of_digits 'a' hda rfl hm
    · rcases List.mem_cons.mp hm with h1 | hm
      · exact absurd h1 (by decide)
      · exact not_mem_of_digits 'a' hdb rfl hm
  have hltok : 'l' ∉ sa ++ '-' :: sb := by
    intro hm
    rcases List.mem_append.mp hm with hm | hm
    · exact not_mem_of_digits 'l' hda rfl hm
    · rcases List.mem_cons.mp hm with h1 | hm
      · exact absurd h1 (by decide)
      · exact not_mem_of_digits 'l' hdb rfl hm
  have hall : strIn allKw (sa ++ '-' :: sb) = false :=
    strIn_eq_false (show 'a' ∈ allKw by decide) hatok
  have hlast : strIn lastKw (sa ++ '-' :: sb) = false :=
    strIn_eq_false (show 'l' ∈ lastKw by decide) hltok
  unfold processToken substituteTok
  rw [if_neg (by rw [hall]; exact Bool.false_ne_true),
    if_neg (by rw [hlast]; exact Bool.false_ne_true)]
  show expandTok s (sa ++ '-' :: sb) = _
  unfold expandTok
  rw [if_pos (List.mem_append.mpr (Or.inr (List.mem_cons_self _ _)))]
  rw [splitOnChar_sep _ (not_mem_of_digits '-' hda rfl),
    splitOnChar_eq_single (not_mem_of_digits '-' hdb rfl)]
  simp only [pyInt_digits ha, pyInt_digits hb]

/-- The range-expansion phase of `main` on a single well-formed dash
token. -/
theorem runMain_single_dash (renv : Option Nat) {sa sb : List Char}
    {a b : Nat} (ha : parseNatDigits sa = some a)
    (hb : parseNatDigits sb = some b) :
    runMain renv (sa ++ '-' :: sb) =
      .ok (add_issue_id_range []
        (pyRange ((a : Nat) : Int) (((b : Nat) : Int) + 1))) := by
  obtain ⟨hna, hda, _⟩ := parseNatDigits_inv ha
  obtain ⟨hnb, hdb, _⟩ := parseNatDigits_inv hb
  have hcomma : ',' ∉ sa ++ '-' :: sb := by
    intro hm
    rcases List.mem_append.mp hm with hm | hm
    · exact not_mem_of_digits ',' hda rfl hm
    · rcases List.mem_cons.mp hm with h1 | hm
      · exact absurd h1 (by decide)
      · exact not_mem_of_digits ',' hdb rfl hm
  unfold runMain
  rw [splitOnChar_eq_single hcomma, processTokens_cons_eq,
    processToken_dash ha hb]
  rfl

/-- The range-expansion phase of `main` on the range spec `all` with a
successfully resolved latest id. -/
theorem runMain_all (L : Nat) :
    runMain (some L) allKw =
      .ok (add_issue_id_range []
        (pyRange ((1 : Nat) : Int) (((L : Nat) : Int) + 1))) := by
  unfold runMain
  rw [splitOnChar_eq_single (show ',' ∉ allKw by decide), processTokens_cons_eq]
  have hpt : processToken (some L) ⟨[], none⟩ allKw =
      expandTok ⟨[], some L⟩ (natToStr 1 ++ '-' :: natToStr L) := by
    unfold processToken substituteTok
    rw [if_pos (show strIn allKw allKw = true by decide), if_pos rfl]
    rfl
  rw [hpt]
  have e1 : expandTok ⟨[], some L⟩ (natToStr 1 ++ '-' :: natToStr L) =
      .ok ⟨add_issue_id_range []
            (pyRange ((1 : Nat) : Int) (((L : Nat) : Int) + 1)), some L⟩ := by
    unfold expandTok
    rw [if_pos (List.mem_append.mpr (Or.inr (List.mem_cons_self _ _)))]
    rw [splitOnChar_sep _ (not_mem_of_digits '-' (natToStr_digits 1) rfl),
      splitOnChar_eq_single (not_mem_of_digits '-' (natToStr_digits L) rfl)]
    simp only [pyInt_digits (parseNatDigits_natToStr 1),
      pyInt_digits (parseNatDigits_natToStr L)]
  rw [e1]
  rfl

/-! ## Helper facts for the claim statements -/

/-- Ids of a fully processed segment are the segment itself. -/
theorem procOf_ids (overwrite skip : Bool) (env : Int → IssueEnv)
    (l : List Int) : (procOf overwrite skip env l).map Prod.fst = l := by
  induction l with
  | nil => rfl
  | cons i is ih =>
    unfold procOf at *
    simp only [List.map_cons, ih]

/-! ## The claims -/

/-- C1: for every range token `a-b` with decimal literals `a` and `b`, the
range expander adds exactly the integers `a, …, b` to the download queue
(none when `b < a`), and with `b < a` the download phase processes zero
items, the run exits 0 and prints `All Done!`. -/
theorem c1_dash_range_expansion (renv : Option Nat) (sa sb : List Char)
    (a b : Nat) (ha : parseNatDigits sa = some a)
    (hb : parseNatDigits sb = some b) (ov sk : Bool) (env : Int → IssueEnv) :
    runMain renv (sa ++ '-' :: sb) =
        .ok (add_issue_id_range []
          (pyRange ((a : Nat) : Int) (((b : Nat) : Int) + 1)))
    ∧ (∀ i : Int,
        i ∈ add_issue_id_range []
            (pyRange ((a : Nat) : Int) (((b : Nat) : Int) + 1)) ↔
          (a : Int) ≤ i ∧ i ≤ (b : Int))
    ∧ ((b : Int) < (a : Int) →
        runWhisperer renv (sa ++ '-' :: sb) ov sk env = .success []
        ∧ exitCode (runWhisperer renv (sa ++ '-' :: sb) ov sk env) = 0
        ∧ printsAllDone (runWhisperer renv (sa ++ '-' :: sb) ov sk env) = true
        ∧ attemptedIds (runWhisperer renv (sa ++ '-' :: sb) ov sk env) = []) := by
  have hrm := runMain_single_dash renv ha hb
  refine ⟨hrm, ?_, ?_⟩
  · intro i
    rw [mem_add_issue_id_range, mem_pyRange]
    simp only [List.not_mem_nil, false_or]
    omega
  · intro hba
    have hrange : pyRange ((a : Nat) : Int) (((b : Nat) : Int) + 1) = [] := by
      unfold pyRange
      rw [show (((b : Nat) : Int) + 1 - ((a : Nat) : Int)).toNat = 0 by omega]
      rfl
    have hempty :
        add_issue_id_range []
          (pyRange ((a : Nat) : Int) (((b : Nat) : Int) + 1)) = [] := by
      rw [hrange]
      rfl
    have hrw : runWhisperer renv (sa ++ '-' :: sb) ov sk env = .success [] := by
      unfold runWhisperer
      simp only [hrm, hempty]
      rfl
    exact ⟨hrw, by rw [hrw]; rfl, by rw [hrw]; rfl, by rw [hrw]; rfl⟩

/-- Witness for C1 at the spec `3-1`: the queue is empty, the run
succeeds with zero processed items. -/
theorem c1_dash_range_expansion_witness :
    runWhisperer none ("3".data ++ '-' :: "1".data) false false
      (fun _ => failEnv) = .success [] :=
  ((c1_dash_range_expansion none "3".data "1".data 3 1 (by decide) (by decide)
    false false (fun _ => failEnv)).2.2 (by decide)).1

/-- C2: the range spec that is exactly the token `all`, with the resolver
succeeding on latest id `L`, expands to exactly the ids
`FIRST_ISSUE_ID, …, L`. -/
theorem c2_all_expands_to_latest (L : Nat) :
    allKw = "all".data ∧ FIRST_ISSUE_ID = 1 ∧
      ∃ q, runMain (some L) allKw = .ok q ∧
        ∀ i : Int, i ∈ q ↔ (FIRST_ISSUE_ID : Int) ≤ i ∧ i ≤ (L : Int) := by
  refine ⟨rfl, rfl,
    add_issue_id_range [] (pyRange ((1 : Nat) : Int) (((L : Nat) : Int) + 1)),
    runMain_all L, ?_⟩
  intro i
  rw [mem_add_issue_id_range, mem_pyRange]
  simp only [List.not_mem_nil, false_or]
  unfold FIRST_ISSUE_ID
  omega

/-- C3: a range spec with a token that contains `all` without being
exactly `all` makes the process report an error to the error stream and
exit non-zero before any download is attempted. -/
theorem c3_all_misuse_fatal (renv : Option Nat) (spec tok : List Char)
    (ov sk : Bool) (env : Int → IssueEnv)
    (hmem : tok ∈ splitOnChar ',' spec)
    (hin : strIn allKw tok = true) (hne : tok ≠ allKw) :
    ∃ a, runWhisperer renv spec ov sk env = .abort a
      ∧ exitCode (.abort a) = 1
      ∧ printsAllDone (.abort a) = false
      ∧ attemptedIds (.abort a) = [] := by
  obtain ⟨a, hp⟩ := processTokens_all_misuse hin hne hmem ⟨[], none⟩
  have hrm : runMain renv spec = .error a := by
    unfold runMain
    rw [hp]
    rfl
  refine ⟨a, ?_, rfl, rfl, rfl⟩
  unfold runWhisperer
  rw [hrm]

/-- Witness for C3 at the spec `all-20`. -/
theorem c3_all_misuse_fatal_witness :
    ∃ a, runWhisperer none "all-20".data false false (fun _ => failEnv) =
        .abort a
      ∧ exitCode (.abort a) = 1
      ∧ printsAllDone (.abort a) = false
      ∧ attemptedIds (.abort a) = [] :=
  c3_all_misuse_fatal none "all-20".data "all-20".data false false
    (fun _ => failEnv) (by decide) (by decide) (by decide)

/-- C4: for every id `n ≥ 1` the URL builder produces exactly the fixed
URL whose hex field is the uppercase hexadecimal of `n` zero-padded to at
least two digits with no truncation, and the URL ends with
`DigitalWhisper<n>.pdf`. -/
theorem c4_url_builder_format (n : Nat) (hn : 1 ≤ n) :
    generate_issue_url n =
        urlStem ++ hex2 n ++ "/DigitalWhisper".data ++ natToStr n
          ++ ".pdf".data
    ∧ (∃ p, generate_issue_url n =
        p ++ ("DigitalWhisper".data ++ natToStr n ++ ".pdf".data))
    ∧ parseHex (hex2 n) = some n
    ∧ 2 ≤ (hex2 n).length
    ∧ (∀ c ∈ hex2 n, (hexCharVal c).isSome)
    ∧ parseNatDigits (natToStr n) = some n := by
  refine ⟨rfl, ?_, parseHex_hex2 n, hex2_length n, hex2_digits n,
    parseNatDigits_natToStr n⟩
  refine ⟨urlStem ++ hex2 n ++ ['/'], ?_⟩
  unfold generate_issue_url
  simp [List.append_assoc]

/-- Witness for C4 at `n = 7`. -/
theorem c4_url_builder_format_witness : parseHex (hex2 7) = some 7 :=
  (c4_url_builder_format 7 (by decide)).2.2.1

/-- C5: the download queue produced by the range-expansion phase never
contains duplicates, and the download phase consumes it exactly once in
ascending sorted order (the attempted ids are an initial segment of the
duplicate-free ascending enumeration of the queue). -/
theorem c5_queue_set_semantics (renv : Option Nat) (spec : List Char)
    (q : Queue) (ov sk : Bool) (env : Int → IssueEnv)
    (h : runMain renv spec = .ok q) :
    q.Nodup ∧ (pySorted q).Nodup ∧ (pySorted q).Perm q
      ∧ List.Sorted (fun x y : Int => x ≤ y) (pySorted q)
      ∧ ∃ rest,
          (download ov sk env (pySorted q)).1.map Prod.fst ++ rest =
            pySorted q := by
  have hnd := runMain_nodup h
  have hperm : (pySorted q).Perm q := List.perm_insertionSort _ q
  exact ⟨hnd, hperm.nodup_iff.mpr hnd, hperm, List.sorted_insertionSort _ q,
    download_ids_initial _ _ _ _⟩

/-- Witness for C5 at the overlapping spec `5,3-5`, whose queue is
`{3, 4, 5}` with the duplicate 5 collapsed. -/
theorem c5_queue_set_semantics_witness :
    ([5, 3, 4] : Queue).Nodup ∧ (pySorted [5, 3, 4]).Nodup
      ∧ (pySorted [5, 3, 4]).Perm [5, 3, 4]
      ∧ List.Sorted (fun x y : Int => x ≤ y) (pySorted [5, 3, 4])
      ∧ ∃ rest,
          (download false false (fun _ => failEnv)
              (pySorted [5, 3, 4])).1.map Prod.fst ++ rest =
            pySorted [5, 3, 4] :=
  c5_queue_set_semantics none "5,3-5".data [5, 3, 4] false false
    (fun _ => failEnv) rfl

/-- C6: with an existing target file and the overwrite flag unset, the
skip flag skips with no fetch and an untouched file; otherwise the user
is prompted and only an answer equal to `y` or `Y` proceeds to the fetch,
any other answer skipping with no fetch and an untouched file. -/
theorem c6_existing_file_policy (ov sk : Bool) (e : IssueEnv)
    (hex : e.fileExists = true) (hov : ov = false) :
    (sk = true → download_issue ov sk e = ⟨false, .untouched, none, none⟩)
    ∧ (sk = false → strLower e.overwriteAnswer ≠ ['y'] →
        download_issue ov sk e = ⟨false, .untouched, none, none⟩)
    ∧ (sk = false → strLower e.overwriteAnswer = ['y'] →
        download_issue ov sk e = fetchAndWrite e
        ∧ (fetchAndWrite e).fetched = true)
    ∧ (strLower e.overwriteAnswer = ['y'] ↔
        e.overwriteAnswer = ['y'] ∨ e.overwriteAnswer = ['Y']) := by
  subst hov
  refine ⟨?_, ?_, ?_, strLower_eq_y _⟩
  · intro hsk
    subst hsk
    simp [download_issue, hex]
  · intro hsk hny
    subst hsk
    simp [download_issue, hex, hny]
  · intro hsk hy
    subst hsk
    exact ⟨by simp [download_issue, hex, hy], fetchAndWrite_fetched e⟩

/-- Witness for C6: only `y`/`Y` count as affirmative for the `Y` answer
environment. -/
theorem c6_existing_file_policy_witness :
    strLower promptEnv.overwriteAnswer = ['y'] ↔
      promptEnv.overwriteAnswer = ['y'] ∨ promptEnv.overwriteAnswer = ['Y'] :=
  (c6_existing_file_policy false false promptEnv rfl rfl).2.2.2

/-- C7: when a fetch fails with an error the loop catches, the user is
prompted; a non-affirmative answer halts the remaining queue silently yet
the run still prints `All Done!` and exits 0, while an affirmative answer
proceeds with the next id. -/
theorem c7_transport_failure_prompt (ov sk : Bool) (env : Int → IssueEnv)
    (renv : Option Nat) (spec : List Char) (q : Queue) (l1 l2 : List Int)
    (k : Int) (f : FetchErr)
    (hq : runMain renv spec = .ok q)
    (hsplit : pySorted q = l1 ++ k :: l2)
    (hcont : ∀ i ∈ l1, stepContinues ov sk (env i) = true)
    (hreach : reachesFetch ov sk (env k) = true)
    (hfail : (env k).fetchResult = .error f)
    (hcaught : f ≠ .generic) :
    (strLower (env k).contAnswer ≠ ['y'] →
        runWhisperer renv spec ov sk env =
          .success (procOf ov sk env l1 ++
            [(k, ⟨true, .untouched, none, some (.fetchRaised f)⟩)])
        ∧ exitCode (runWhisperer renv spec ov sk env) = 0
        ∧ printsAllDone (runWhisperer renv spec ov sk env) = true
        ∧ attemptedIds (runWhisperer renv spec ov sk env) = l1 ++ [k])
    ∧ (strLower (env k).contAnswer = ['y'] →
        download ov sk env (pySorted q) =
          (procOf ov sk env l1 ++
              (k, ⟨true, .untouched, none, some (.fetchRaised f)⟩) ::
                (download ov sk env l2).1,
            (download ov sk env l2).2)) := by
  have hdi : download_issue ov sk (env k) =
      ⟨true, .untouched, none, some (.fetchRaised f)⟩ := by
    rw [download_issue_eq_fetchAndWrite hreach]
    unfold fetchAndWrite
    simp only [hfail]
  have hcb : caughtByLoop (.fetchRaised f) = true := by
    cases f
    · rfl
    · rfl
    · exact absurd rfl hcaught
  constructor
  · intro hny
    have hdl : download ov sk env (pySorted q) =
        (procOf ov sk env l1 ++
          [(k, ⟨true, .untouched, none, some (.fetchRaised f)⟩)], none) := by
      rw [hsplit, download_append l1 (k :: l2) hcont, download_cons_eq]
      simp only [hdi]
      rw [if_pos hcb, if_neg hny]
    have hrw : runWhisperer renv spec ov sk env =
        .success (procOf ov sk env l1 ++
          [(k, ⟨true, .untouched, none, some (.fetchRaised f)⟩)]) := by
      unfold runWhisperer
      simp only [hq, hdl]
    refine ⟨hrw, by rw [hrw]; rfl, by rw [hrw]; rfl, ?_⟩
    rw [hrw]
    show (procOf ov sk env l1 ++
      [(k, (⟨true, .untouched, none, some (.fetchRaised f)⟩ : IssueResult))]).map
        Prod.fst = l1 ++ [k]
    rw [List.map_append, procOf_ids]
    rfl
  · intro hy
    rw [hsplit, download_append l1 (k :: l2) hcont, download_cons_eq]
    simp only [hdi]
    rw [if_pos hcb, if_pos hy]

/-- Witness for C7 at the spec `1-2` with a transport failure on issue 1
and a negative continue answer: issue 2 is never attempted, the run still
succeeds. -/
theorem c7_transport_failure_prompt_witness :
    runWhisperer none "1-2".data false false (fun _ => failEnv) =
      .success (procOf false false (fun _ => failEnv) [] ++
        [(1, ⟨true, .untouched, none, some (.fetchRaised .urlErr)⟩)]) :=
  (((c7_transport_failure_prompt false false (fun _ => failEnv) none
    "1-2".data [1, 2] [] [2] 1 .urlErr rfl rfl (by simp) rfl rfl
    (by decide)).1) (by decide)).1

/-- C8: a successful resolution is cached and every later call returns the
cached id without fetching; a failed resolution leaves the cache absent so
a later call fetches again. -/
theorem c8_resolver_caching (renv : Option Nat) (s : MState) (d v : Nat) :
    (s.last_issue_id_cache = some v →
        get_last_issue_id renv s = (some v, s, false))
    ∧ (s.last_issue_id_cache = none →
        get_last_issue_id (some d) s =
            (some d, { s with last_issue_id_cache := some d }, true)
        ∧ (∀ renv2, get_last_issue_id renv2
              { s with last_issue_id_cache := some d } =
            (some d, { s with last_issue_id_cache := some d }, false))
        ∧ get_last_issue_id none s = (none, s, true)
        ∧ (get_last_issue_id none s).2.1.last_issue_id_cache = none
        ∧ get_last_issue_id (some d) ((get_last_issue_id none s).2.1) =
            (some d, { s with last_issue_id_cache := some d }, true)) := by
  constructor
  · intro hc
    unfold get_last_issue_id
    simp only [hc]
  · intro hc
    refine ⟨?_, ?_, ?_, ?_, ?_⟩
    · unfold get_last_issue_id
      simp only [hc]
    · intro renv2
      unfold get_last_issue_id
      rfl
    · unfold get_last_issue_id
      simp only [hc]
    · unfold get_last_issue_id
      simp only [hc]
    · unfold get_last_issue_id
      simp only [hc]

/-- Witness for C8 on the empty-cache state with a successful resolution
of id 9. -/
theorem c8_resolver_caching_witness :
    get_last_issue_id (some 9) (⟨[], none⟩ : MState) =
      (some 9, { (⟨[], none⟩ : MState) with last_issue_id_cache := some 9 },
        true) :=
  ((c8_resolver_caching (some 9) ⟨[], none⟩ 9 0).2 rfl).1

/-- C9: on fetch success the full body is written to the target (a binary
write that replaces any pre-existing content), and the reported size is
the byte count divided by 1,000,000 rounded to two decimal places. -/
theorem c9_success_write_and_size (ov sk : Bool) (e : IssueEnv)
    (body : List Nat) (cs : List Char) (c : Int)
    (hreach : reachesFetch ov sk e = true)
    (hfetch : e.fetchResult = .ok (body, some cs))
    (hparse : pyInt cs = some c)
    (hlen : c = (body.length : Int)) :
    download_issue ov sk e =
        ⟨true, .written body,
          some (bytes_to_megabytes (body.length : Int)), none⟩
    ∧ bytes_to_megabytes (body.length : Int) =
        pyRound2 ((body.length : ℚ) / 1000000) := by
  subst hlen
  constructor
  · rw [download_issue_eq_fetchAndWrite hreach]
    unfold fetchAndWrite
    simp only [hfetch, hparse]
  · unfold bytes_to_megabytes
    rw [Int.cast_natCast]

/-- Witness for C9 on a two-byte body with `Content-Length: 2`. -/
theorem c9_success_write_and_size_witness :
    download_issue false false okEnv =
      ⟨true, .written [7, 7],
        some (bytes_to_megabytes (([7, 7] : List Nat).length : Int)),
        none⟩ :=
  (c9_success_write_and_size false false okEnv [7, 7] ['2'] 2 rfl rfl
    (by decide) (by decide)).1

/-- C10: a successful fetch with no `Content-Length` header truncates any
pre-existing target file to zero bytes (the file is opened for binary
writing first) and then raises `TypeError` from `int(None)` before any
byte of the body is written; the loop does not catch it, so the whole
process dies there. -/
theorem c10_missing_content_length (ov sk : Bool) (e : IssueEnv)
    (body : List Nat)
    (hreach : reachesFetch ov sk e = true)
    (hfetch : e.fetchResult = .ok (body, none)) :
    download_issue ov sk e = ⟨true, .truncated, none, some .typeError⟩
    ∧ caughtByLoop .typeError = false
    ∧ ∀ (env : Int → IssueEnv) (i : Int) (rest : List Int), env i = e →
        download ov sk env (i :: rest) =
          ([(i, ⟨true, .truncated, none, some .typeError⟩)],
            some .typeError) := by
  have hdi : download_issue ov sk e =
      ⟨true, .truncated, none, some .typeError⟩ := by
    rw [download_issue_eq_fetchAndWrite hreach]
    unfold fetchAndWrite
    simp only [hfetch]
  refine ⟨hdi, rfl, ?_⟩
  intro env i rest henv
  rw [download_cons_eq, henv, hdi]
  rfl

/-- Witness for C10 on a one-byte body with no header. -/
theorem c10_missing_content_length_witness :
    download_issue false false noLenEnv =
      ⟨true, .truncated, none, some .typeError⟩ :=
  (c10_missing_content_length false false noLenEnv [7] rfl rfl).1
